import Mathlib

/-!
Verification development for the reservation time-table engine in `app.py`.

Python strings are modelled as `List Char`; machine integers as `ℕ`/`ℤ` (Python
integers are unbounded, so no wrap-around is modelled); Python floats produced by
`/` are modelled as exact rationals `ℚ`; `None`-returning fallible code as `Option`.
-/

/-- Value of a decimal digit character, `none` for any other character. -/
def chDigit? (c : Char) : Option ℕ :=
  if '0' ≤ c ∧ c ≤ '9' then some (c.toNat - 48) else none

/-- Model of Python `int(s)` restricted to non-empty all-digit strings (the only
inputs produced by the time pipeline); any other string yields `none`, which the
callers turn into the documented degenerate value. -/
def digitsToNat? (cs : List Char) : Option ℕ :=
  if cs = [] then none
  else cs.foldl (fun acc c =>
    match acc, chDigit? c with
    | some a, some d => some (a * 10 + d)
    | _, _ => none) (some 0)

/-- Model of Python `s.split(':')`. -/
def splitColon : List Char → List (List Char)
  | [] => [[]]
  | c :: t =>
    if c = ':' then [] :: splitColon t
    else
      match splitColon t with
      | h :: r => (c :: h) :: r
      | [] => [[c]]

/-- `time_to_minutes` from `app.py`: split on `:`, convert the two parts with `int`,
return `hours * 60 + minutes`; every failure path returns `0`. -/
def time_to_minutes (s : List Char) : ℕ :=
  match splitColon s with
  | [h, m] =>
    match digitsToNat? h, digitsToNat? m with
    | some hh, some mm => hh * 60 + mm
    | _, _ => 0
  | _ => 0

/-- Python `f"{n:02d}"` for a natural number: decimal digits padded to width 2. -/
def fmt02 (n : ℕ) : List Char :=
  if n < 10 then '0' :: Nat.toDigits 10 n else Nat.toDigits 10 n

/-- `minutes_to_time` from `app.py`: `f"{m // 60:02d}:{m % 60:02d}"`. -/
def minutes_to_time (m : ℕ) : List Char :=
  fmt02 (m / 60) ++ ':' :: fmt02 (m % 60)

/-!
Reservation normalizer: `parse_datetime` tries `strptime` with format
`%m/%d/%y %I:%M %p` first and `%m/%d/%Y %I:%M %p` second; both failing yields
`None`.  The helper extractors fall back to "00:00" / "" / "" on `None`.
-/

/-- Result of a successful Python `datetime.strptime`: a plain calendar datetime
(hour already converted to the 24-hour clock). -/
structure PyDateTime where
  year : ℕ
  month : ℕ
  day : ℕ
  hour : ℕ
  minute : ℕ
deriving DecidableEq

/-- Python `datetime.min`: year 1, month 1, day 1, midnight. -/
def pyDateTimeMin : PyDateTime := ⟨1, 1, 1, 0, 0⟩

def isLeapYear (y : ℕ) : Bool :=
  decide ((y % 4 = 0 ∧ ¬y % 100 = 0) ∨ y % 400 = 0)

def daysInMonth (y m : ℕ) : ℕ :=
  if m = 1 then 31
  else if m = 2 then (if isLeapYear y then 29 else 28)
  else if m = 3 then 31
  else if m = 4 then 30
  else if m = 5 then 31
  else if m = 6 then 30
  else if m = 7 then 31
  else if m = 8 then 31
  else if m = 9 then 30
  else if m = 10 then 31
  else if m = 11 then 30
  else 31

/-- Greedy one-or-two digit field, as matched by the strptime patterns for
`%m`, `%d`, `%I`, `%M` (the numeric range is checked by the caller; since every
following format character is a non-digit delimiter, greedy matching agrees
with the regex alternation used by `_strptime`). -/
def parse1or2Digits : List Char → Option (ℕ × List Char)
  | [] => none
  | c :: t =>
    match chDigit? c with
    | none => none
    | some d1 =>
      match t with
      | c2 :: t2 =>
        match chDigit? c2 with
        | some d2 => some (d1 * 10 + d2, t2)
        | none => some (d1, t)
      | [] => some (d1, [])

/-- Exactly `k` digits (strptime `%y` uses k = 2, `%Y` uses k = 4). -/
def parseKDigits : ℕ → ℕ → List Char → Option (ℕ × List Char)
  | 0, acc, rest => some (acc, rest)
  | _ + 1, _, [] => none
  | k + 1, acc, c :: t =>
    match chDigit? c with
    | some d => parseKDigits k (acc * 10 + d) t
    | none => none

/-- Literal format character: must match exactly. -/
def expectChar (ch : Char) : List Char → Option (List Char)
  | [] => none
  | c :: t => if c = ch then some t else none

def isSpaceChar (c : Char) : Bool :=
  decide (c = ' ' ∨ c = '\t' ∨ c = '\n' ∨ c = '\r')

/-- A literal blank in a strptime format matches one or more whitespace characters. -/
def parseSpaces1 : List Char → Option (List Char)
  | [] => none
  | c :: t => if isSpaceChar c then some (t.dropWhile isSpaceChar) else none

/-- Strptime `%p`: case-insensitive `AM`/`PM`; `true` means PM. -/
def parseAmPm : List Char → Option (Bool × List Char)
  | c1 :: c2 :: rest =>
    if (c1 = 'A' ∨ c1 = 'a') ∧ (c2 = 'M' ∨ c2 = 'm') then some (false, rest)
    else if (c1 = 'P' ∨ c1 = 'p') ∧ (c2 = 'M' ∨ c2 = 'm') then some (true, rest)
    else none
  | _ => none

/-- Year field: strptime `%y` (exactly two digits, pivot 00-68 to 20xx and
69-99 to 19xx) or `%Y` (exactly four digits). -/
def parseYearField (fourDigitYear : Bool) (s : List Char) : Option (ℕ × List Char) :=
  if fourDigitYear then parseKDigits 4 0 s
  else
    match parseKDigits 2 0 s with
    | none => none
    | some (yy, r) => some (if yy ≤ 68 then 2000 + yy else 1900 + yy, r)

/-- Parse `%m/%d/` and the year field, with the numeric range checks of the
strptime patterns; returns `(month, day, year, rest)`. -/
def parseDatePart (fourDigitYear : Bool) (s : List Char) : Option (ℕ × ℕ × ℕ × List Char) :=
  match parse1or2Digits s with
  | none => none
  | some (mo, r1) =>
    if 1 ≤ mo ∧ mo ≤ 12 then
      match expectChar '/' r1 with
      | none => none
      | some r2 =>
        match parse1or2Digits r2 with
        | none => none
        | some (dy, r3) =>
          if 1 ≤ dy ∧ dy ≤ 31 then
            match expectChar '/' r3 with
            | none => none
            | some r4 =>
              match parseYearField fourDigitYear r4 with
              | none => none
              | some (yr, r5) =>
                if 1 ≤ yr ∧ yr ≤ 9999 then some (mo, dy, yr, r5) else none
          else none
    else none

/-- Parse `%I:%M %p` with range checks; returns `(hour12, minute, isPM, rest)`. -/
def parseClockPart (s : List Char) : Option (ℕ × ℕ × Bool × List Char) :=
  match parse1or2Digits s with
  | none => none
  | some (hr, r1) =>
    if 1 ≤ hr ∧ hr ≤ 12 then
      match expectChar ':' r1 with
      | none => none
      | some r2 =>
        match parse1or2Digits r2 with
        | none => none
        | some (mi, r3) =>
          if mi ≤ 59 then
            match parseSpaces1 r3 with
            | none => none
            | some r4 =>
              match parseAmPm r4 with
              | none => none
              | some (pm, r5) => some (hr, mi, pm, r5)
          else none
    else none

/-- The 12-hour to 24-hour conversion done by `_strptime` for `%I` with `%p`. -/
def pyHour24 (pm : Bool) (hr : ℕ) : ℕ :=
  if pm then (if hr = 12 then 12 else hr + 12) else (if hr = 12 then 0 else hr)

/-- One strptime attempt with format `%m/%d/%y %I:%M %p` (two-digit year) or
`%m/%d/%Y %I:%M %p` (four-digit year).  Field ranges, the calendar validity
check done by the `datetime` constructor, the pivot rule for `%y`, the 12-hour
to 24-hour conversion, and the "unconverted data remains" check are modelled. -/
def parseFormat (fourDigitYear : Bool) (s : List Char) : Option PyDateTime :=
  match parseDatePart fourDigitYear s with
  | none => none
  | some (mo, dy, yr, r1) =>
    match parseSpaces1 r1 with
    | none => none
    | some r2 =>
      match parseClockPart r2 with
      | none => none
      | some (hr, mi, pm, r3) =>
        if r3 = [] ∧ dy ≤ daysInMonth yr mo then
          some ⟨yr, mo, dy, pyHour24 pm hr, mi⟩
        else none

/-- `parse_datetime` from `app.py`: try the two-digit-year format, then the
four-digit-year format, `none` when both fail. -/
def parse_datetime (s : List Char) : Option PyDateTime :=
  match parseFormat false s with
  | some dt => some dt
  | none => parseFormat true s

/-- Days in all proleptic-Gregorian years before year `y` (as in CPython's
`datetime` ordinal arithmetic). -/
def daysBeforeYear (y : ℕ) : ℕ :=
  (y - 1) * 365 + (y - 1) / 4 - (y - 1) / 100 + (y - 1) / 400

def daysBeforeMonth (y m : ℕ) : ℕ :=
  ((List.range' 1 (m - 1)).map (daysInMonth y)).sum

/-- Python `date.toordinal`: day number with 1/1/1 = 1. -/
def toOrdinal (dt : PyDateTime) : ℕ :=
  daysBeforeYear dt.year + daysBeforeMonth dt.year dt.month + dt.day

/-- Python `date.weekday`: Monday = 0 ... Sunday = 6. -/
def pyWeekday (dt : PyDateTime) : ℕ := (toOrdinal dt + 6) % 7

def dayNames : List (List Char) :=
  [['M', 'o'], ['T', 'u'], ['W', 'e'], ['T', 'h'], ['F', 'r'], ['S', 'a'], ['S', 'u']]

/-- `get_day_of_week` from `app.py`: `days[dt.weekday()]`, `""` on parse failure. -/
def get_day_of_week (s : List Char) : List Char :=
  match parse_datetime s with
  | some dt => dayNames.getD (pyWeekday dt) []
  | none => []

/-- `extract_time_only` from `app.py`: `dt.strftime("%H:%M")`, `"00:00"` on parse failure. -/
def extract_time_only (s : List Char) : List Char :=
  match parse_datetime s with
  | some dt => fmt02 dt.hour ++ ':' :: fmt02 dt.minute
  | none => ['0', '0', ':', '0', '0']

/-- Decimal digits of a natural number without padding (Python `str(n)` inside an f-string). -/
def natChars (n : ℕ) : List Char := Nat.toDigits 10 n

/-- `extract_date_only` from `app.py`: `f"{dt.month}/{dt.day}"`, `""` on parse failure. -/
def extract_date_only (s : List Char) : List Char :=
  match parse_datetime s with
  | some dt => natChars dt.month ++ '/' :: natChars dt.day
  | none => []

/-- `extract_full_date` from `app.py`: the parsed datetime, `datetime.min` on failure. -/
def extract_full_date (s : List Char) : PyDateTime :=
  match parse_datetime s with
  | some dt => dt
  | none => pyDateTimeMin

/-!
Data model of the engine: normalized reservation records, 10-minute slots, and
the attribution records appended by the overlap engine.
-/

/-- A reservation record after the normalization loop in `main` (the raw dict
plus the derived `time`, `date`, `day_of_week`, `location_date` fields). -/
structure Item where
  location : List Char
  id : ℤ
  datetime : List Char
  time : List Char
  date : List Char
  day_of_week : List Char
  location_date : List Char
deriving DecidableEq

/-- The dict appended to `slot['reservations']` for each covering reservation. -/
structure Attribution where
  id : ℤ
  location_date : List Char
  time : List Char
deriving DecidableEq

/-- One 10-minute slot of the operating-hours grid, with its running occupancy
counter and attribution list. -/
structure Slot where
  time : List Char
  minutes : ℕ
  count : ℕ
  reservations : List Attribution
deriving DecidableEq

def defaultSlot : Slot := ⟨[], 0, 0, []⟩

def allDatesChars : List Char := ['A', 'l', 'l', ' ', 'D', 'a', 't', 'e', 's']

/-- Buffered-interval covering test from `app.py`:
`start_minutes_res <= slot_minutes < end_minutes_res` with the ±30 buffer,
computed in ℤ because `t - 30` may be negative in Python. -/
def coversB (t : ℕ) (m : ℕ) : Bool :=
  decide ((t : ℤ) - 30 ≤ (m : ℤ)) && decide ((m : ℤ) < (t : ℤ) + 30)

/-- In-range filter from `calculate_time_slots`:
`reservation_end > start_minutes and reservation_start < end_minutes`. -/
def inRangeB (start_minutes end_minutes : ℕ) (item : Item) : Bool :=
  let t := time_to_minutes item.time
  decide ((start_minutes : ℤ) < (t : ℤ) + 30) && decide ((t : ℤ) - 30 < (end_minutes : ℤ))

def mkAttribution (item : Item) : Attribution :=
  ⟨item.id, item.location_date, item.time⟩

/-- One pass of the attribution loop body: bump the counter and append the
attribution on every slot whose start minute the item's buffer covers. -/
def addItem (item : Item) (slots : List Slot) : List Slot :=
  slots.map (fun slot =>
    if coversB (time_to_minutes item.time) slot.minutes then
      { slot with
        count := slot.count + 1,
        reservations := slot.reservations ++ [mkAttribution item] }
    else slot)

/-- The slot grid built at the top of `calculate_time_slots`: for each hour of
the window, slots at minutes 0,10,...,50, each with count 0 and no attributions. -/
def buildSlots (start_hour end_hour : ℕ) : List Slot :=
  (List.range' start_hour (end_hour - start_hour)).flatMap (fun hour =>
    [0, 10, 20, 30, 40, 50].map (fun minute =>
      ⟨minutes_to_time (hour * 60 + minute), hour * 60 + minute, 0, []⟩))

/-- The guard `if selected_location_date and selected_location_date != "All Dates"`
(`none` models Python `None`; the empty string is falsy). -/
def dateFilter (sel : Option (List Char)) (data : List Item) : List Item :=
  match sel with
  | none => data
  | some s =>
    if ¬s = [] ∧ ¬s = allDatesChars then
      data.filter (fun it => decide (it.location_date = s))
    else data

/-- `calculate_time_slots` from `app.py`: optional date filter, slot grid,
range filter with the ±30 buffer, then the attribution loop; returns the final
slot list and the range-filtered data. -/
def calculate_time_slots (data : List Item) (start_hour end_hour : ℕ)
    (sel : Option (List Char)) : List Slot × List Item :=
  let data2 := dateFilter sel data
  let slots0 := buildSlots start_hour end_hour
  let filtered := data2.filter (inRangeB (start_hour * 60) (end_hour * 60))
  (filtered.foldl (fun slots it => addItem it slots) slots0, filtered)

/-!
Aggregation core of `create_heatmap`: location-date grouping, date-sorted rows,
the rounded average row, and the capacity-violation boxes.
-/

/-- `LOCATION_CAPS` lookup with the `"default"` fallback (`get_location_cap`). -/
def get_location_cap (loc : List Char) : ℕ :=
  if loc = ['D', 'e', 'n', 'v', 'e', 'r'] then 40
  else if loc = ['T', 'a', 'm', 'p', 'a'] then 10
  else if loc = ['S', 'a', 'n', ' ', 'F', 'r', 'a', 'n', 'c', 'i', 's', 'c', 'o'] then 2
  else 3

/-- Keys of the `location_date_groups` dict in first-occurrence order
(Python dict insertion order). -/
def firstOccKeys (data : List Item) : List (List Char) :=
  data.foldl (fun ks it => if it.location_date ∈ ks then ks else ks ++ [it.location_date]) []

/-- Items of one location-date group, in data order. -/
def groupItems (data : List Item) (k : List Char) : List Item :=
  data.filter (fun it => decide (it.location_date = k))

/-- Strict lexicographic order on datetimes (Python `datetime` comparison). -/
def dtLtB (a b : PyDateTime) : Bool :=
  decide (a.year < b.year ∨ (a.year = b.year ∧ (a.month < b.month ∨ (a.month = b.month ∧
    (a.day < b.day ∨ (a.day = b.day ∧ (a.hour < b.hour ∨ (a.hour = b.hour ∧
      a.minute < b.minute))))))))

/-- Sort key of a group: `extract_full_date` of its first item's datetime. -/
def sortKeyOf (data : List Item) (k : List Char) : PyDateTime :=
  match (groupItems data k).head? with
  | some it => extract_full_date it.datetime
  | none => pyDateTimeMin

/-- Stable insertion: `lt y x` means `y` must stay strictly before `x`; on ties
the earlier original element (`x`, inserted by `sortStable` from the left) wins. -/
def insertStable {α : Type} (lt : α → α → Bool) (x : α) : List α → List α
  | [] => [x]
  | y :: t => if lt y x then y :: insertStable lt x t else x :: y :: t

/-- Stable insertion sort, modelling Python's stable `sorted`. -/
def sortStable {α : Type} (lt : α → α → Bool) : List α → List α
  | [] => []
  | a :: t => insertStable lt a (sortStable lt t)

/-- One pass of the per-group counting loop in `create_heatmap` (lines that
increment `location_date_total_row[i]` for every covered slot). -/
def addRowItem (slots : List Slot) (item : Item) (row : List ℕ) : List ℕ :=
  (slots.zip row).map (fun p =>
    if coversB (time_to_minutes item.time) p.1.minutes then p.2 + 1 else p.2)

/-- `location_date_total_row` for one group. -/
def groupRow (slots : List Slot) (items : List Item) : List ℕ :=
  items.foldl (fun row it => addRowItem slots it row) (List.replicate slots.length 0)

/-- Python 3 `round` on an exact rational: nearest integer, ties to even. -/
def pyRound (q : ℚ) : ℤ :=
  let n := ⌊q⌋
  let r := q - n
  if r < 1 / 2 then n
  else if 1 / 2 < r then n + 1
  else if 2 ∣ n then n else n + 1

/-- Left-to-right scan emitting the maximal runs of indices satisfying `p`,
with `i` the index of the first element of the list; this is the run detection
loop of `create_heatmap` and of the weekly view (open a run when the value
first meets the threshold, extend it while values keep meeting it, close it
otherwise), written as a structural recursion that merges adjacent runs. -/
def findRuns {α : Type} (p : α → Bool) : List α → ℕ → List (ℕ × ℕ)
  | [], _ => []
  | a :: t, i =>
    let rest := findRuns p t (i + 1)
    if p a then
      match rest with
      | [] => [(i, i + 1)]
      | (s, e) :: rs => if s = i + 1 then (i, e) :: rs else (i, i + 1) :: (s, e) :: rs
    else rest

/-- Aggregation outputs of `create_heatmap`: the capacity cap in effect, the
date-sorted group keys, the per-group rows in display order (reversed sorted
order, as `z_data_summary`), the column sums, the number of groups, the rounded
average row, and the capacity-violation runs of every displayed row. -/
structure HeatOut where
  cap : ℕ
  sortedKeys : List (List Char)
  rows : List (List ℕ)
  sumRow : List ℕ
  numDates : ℕ
  avgRow : List ℤ
  capRuns : List (List (ℕ × ℕ))
deriving DecidableEq

/-- Computational core of `create_heatmap` from `app.py` (grouping, ordering,
per-group rows, average row, capacity boxes); chart shapes and annotations are
presentation-only and not modelled. -/
def createHeatmap (time_slots : List Slot) (data : List Item)
    (selected_location : Option (List Char)) : HeatOut :=
  let cap := match selected_location with
    | some l => get_location_cap l
    | none => 3
  let keys := firstOccKeys data
  let sortedKeys := sortStable (fun k1 k2 => dtLtB (sortKeyOf data k1) (sortKeyOf data k2)) keys
  let rows := sortedKeys.reverse.map (fun k => groupRow time_slots (groupItems data k))
  let sumRow := rows.foldl (fun acc r => List.zipWith (fun a b => a + b) acc r)
    (List.replicate time_slots.length (0 : ℕ))
  let numDates := sortedKeys.length
  let avgRow :=
    if 0 < numDates then sumRow.map (fun v : ℕ => pyRound ((v : ℚ) / (numDates : ℚ)))
    else sumRow.map (fun v : ℕ => (v : ℤ))
  let zAll := rows.map (fun r => r.map (fun v : ℕ => (v : ℤ))) ++ [avgRow]
  ⟨cap, sortedKeys, rows, sumRow, numDates, avgRow,
    zAll.map (fun r => findRuns (fun v => decide ((cap : ℤ) ≤ v)) r 0)⟩

/-!
Weekly view from `main`: per-day-of-week averaged rows, utilization rates, and
the weekly capacity boxes with the `max(1, cap - 1)` threshold.
-/

def itemCoversB (item : Item) (m : ℕ) : Bool :=
  coversB (time_to_minutes item.time) m

/-- Number of 1-entries collected in `day_counts[day][i]`: reservations of that
day of week whose buffer covers slot `i`. -/
def dayHits (data : List Item) (slots : List Slot) (day : List Char) (i : ℕ) : ℕ :=
  data.countP (fun it => decide (it.day_of_week = day)
    && itemCoversB it ((slots.getD i defaultSlot).minutes))

/-- `len(set(item['date'] for ... if day matches))`: distinct dates observed for
a day of week. -/
def numDatesForDay (data : List Item) (day : List Char) : ℕ :=
  (((data.filter (fun it => decide (it.day_of_week = day))).map (fun it => it.date)).dedup).length

/-- The slot entries of one weekly row (`row` before the three appended cells):
average hits per observed date, 0 for slots with no hits. -/
def weeklySlotVals (data : List Item) (slots : List Slot) (day : List Char) : List ℚ :=
  (List.range slots.length).map (fun i =>
    if 0 < dayHits data slots day i then
      (if 0 < numDatesForDay data day then
        (dayHits data slots day i : ℚ) / (numDatesForDay data day : ℚ)
      else 0)
    else 0)

/-- `util = (avg / location_cap * 100) if location_cap > 0 else 0` from the
weekly view: the guarded utilization expression. -/
def utilPct (avg : ℚ) (cap : ℤ) : ℚ :=
  if 0 < cap then avg / (cap : ℚ) * 100 else 0

/-- `total_util` accumulated over the slots of one weekly row (the utilization
term is only added in the branch where the slot has hits). -/
def weeklyTotalUtil (data : List Item) (slots : List Slot) (cap : ℤ) (day : List Char) : ℚ :=
  ((List.range slots.length).map (fun i =>
    if 0 < dayHits data slots day i then
      utilPct (if 0 < numDatesForDay data day then
        (dayHits data slots day i : ℚ) / (numDatesForDay data day : ℚ) else 0) cap
    else 0)).sum

/-- `avg_util = total_util / count_slots if count_slots > 0 else 0`. -/
def weeklyAvgUtil (data : List Item) (slots : List Slot) (cap : ℤ) (day : List Char) : ℚ :=
  if 0 < slots.length then weeklyTotalUtil data slots cap day / (slots.length : ℚ) else 0

/-- One full weekly row: slot averages, two spacer cells, then the day's
average utilization. -/
def weeklyRowFull (data : List Item) (slots : List Slot) (cap : ℤ) (day : List Char) : List ℚ :=
  weeklySlotVals data slots day ++ [0, 0, weeklyAvgUtil data slots cap day]

/-- `weekly_cap_threshold = max(1, location_cap - 1)` from `main`. -/
def weekly_cap_threshold (cap : ℤ) : ℤ := max 1 (cap - 1)

/-- Weekly capacity-violation runs: the scan over the slot cells of each day
row (the loop stops before the three appended cells), at the reduced weekly
threshold. -/
def weeklyRuns (data : List Item) (slots : List Slot) (cap : ℤ) : List (List (ℕ × ℕ)) :=
  dayNames.map (fun day =>
    findRuns (fun v => decide (((weekly_cap_threshold cap : ℤ) : ℚ) ≤ v))
      (weeklySlotVals data slots day) 0)

/-!
Caller-observable counts from `main`: the hidden-records message.
-/

/-- The hidden-reservations figure of `main`: `total_original` recounts the
date-matching records with the raw selectbox string, `total_filtered` is the
length of the engine's filtered data, and the difference is reported only when
positive (`none` models no message). -/
def mainHiddenReport (data : List Item) (sh eh : ℕ) (selRaw : List Char) : Option ℕ :=
  let sel : Option (List Char) := if selRaw = allDatesChars then none else some selRaw
  let filtered := (calculate_time_slots data sh eh sel).2
  let total_filtered := filtered.length
  let total_original := (data.filter (fun it =>
    decide (selRaw = allDatesChars) || decide (it.location_date = selRaw))).length
  if total_filtered < total_original then some (total_original - total_filtered) else none

/-- The per-record normalization step of `main` (fields derived from the
datetime string; `location_date` is set to the short date label). -/
def processRecord (location : List Char) (idv : ℤ) (dts : List Char) : Item :=
  { location := location, id := idv, datetime := dts,
    time := extract_time_only dts, date := extract_date_only dts,
    day_of_week := get_day_of_week dts, location_date := extract_date_only dts }

/-!
Busiest-hour ranking.  Modelled from the spec: this analytics feature is
described in the specification but its code is not among the sources, so the
definitions below follow the spec text.
-/

/-- Modelled from the spec: partition of the slot grid into contiguous 1-hour
buckets of 6 slots, the final bucket possibly partial (the busiest-hour code is
not in `src/`). -/
def chunks6 {α : Type} : List α → List (List α)
  | [] => []
  | [a] => [[a]]
  | [a, b] => [[a, b]]
  | [a, b, c] => [[a, b, c]]
  | [a, b, c, d] => [[a, b, c, d]]
  | [a, b, c, d, e] => [[a, b, c, d, e]]
  | a :: b :: c :: d :: e :: f :: rest => [a, b, c, d, e, f] :: chunks6 rest

/-- Modelled from the spec: the ranking key of a bucket,
`(sum of slot counts, max slot count)`. -/
def bucketKey (c : List ℕ) : ℕ × ℕ := (c.sum, c.foldr max 0)

/-- Modelled from the spec: the third bucket statistic, count of slots with any
occupancy. -/
def bucketBusy (c : List ℕ) : ℕ := c.countP (fun v => decide (0 < v))

/-- Strict lexicographic comparison of ranking keys. -/
def keyLtB (a b : ℕ × ℕ) : Bool :=
  decide (a.1 < b.1 ∨ (a.1 = b.1 ∧ a.2 < b.2))

/-- Modelled from the spec: busiest-hour ranking over a row of slot counts —
1-hour buckets ranked descending by `(total, max)` with a stable sort, top 4
returned (the busiest-hour code is not in `src/`). -/
def busiestHours (counts : List ℕ) : List (List ℕ) :=
  (sortStable (fun c d => keyLtB (bucketKey d) (bucketKey c)) (chunks6 counts)).take 4

/-- Concrete record constructor used by the witnesses and counterexamples
below (a normalized item with the given time string, date label and
day-of-week, arbitrary elsewhere). -/
def sampleItem (timeStr ld dow : List Char) : Item :=
  { location := [], id := 1, datetime := [], time := timeStr, date := ld,
    day_of_week := dow, location_date := ld }

/-- Position `j` of `row` exists and satisfies `p`. -/
def SatAt {α : Type} (p : α → Bool) (row : List α) (j : ℕ) : Prop :=
  ∃ a, row[j]? = some a ∧ p a = true

/-- Position `j` of `row` exists and fails `p`. -/
def FailAt {α : Type} (p : α → Bool) (row : List α) (j : ℕ) : Prop :=
  ∃ a, row[j]? = some a ∧ p a = false

/-- A maximal contiguous run of positions satisfying `p`: non-empty, within the
row, every inside position satisfies `p`, and the run can be extended neither
to the left nor to the right. -/
def IsMaxRun {α : Type} (p : α → Bool) (row : List α) (r : ℕ × ℕ) : Prop :=
  r.1 < r.2 ∧ r.2 ≤ row.length ∧
  (∀ j, r.1 ≤ j → j < r.2 → SatAt p row j) ∧
  (r.1 = 0 ∨ FailAt p row (r.1 - 1)) ∧
  (r.2 = row.length ∨ FailAt p row r.2)

/-- Induction package for the run scan on the suffix of `row` starting at `i`:
bounds, first-run start, in-run coverage, left and right maximality,
exhaustiveness, separation of consecutive runs, and completeness. -/
def RunsSpec {α : Type} (p : α → Bool) (row : List α) (i : ℕ) : Prop :=
  (∀ r ∈ findRuns p (row.drop i) i, i ≤ r.1 ∧ r.1 < r.2 ∧ r.2 ≤ row.length) ∧
  (∀ r ∈ findRuns p (row.drop i) i, r.1 = i → SatAt p row i) ∧
  (∀ r ∈ findRuns p (row.drop i) i, ∀ j, r.1 ≤ j → j < r.2 → SatAt p row j) ∧
  (∀ r ∈ findRuns p (row.drop i) i, r.1 = i ∨ FailAt p row (r.1 - 1)) ∧
  (∀ r ∈ findRuns p (row.drop i) i, r.2 = row.length ∨ FailAt p row r.2) ∧
  (∀ j, i ≤ j → j < row.length → SatAt p row j →
    ∃ r, r ∈ findRuns p (row.drop i) i ∧ r.1 ≤ j ∧ j < r.2) ∧
  List.Pairwise (fun r1 r2 : ℕ × ℕ => r1.2 < r2.1) (findRuns p (row.drop i) i) ∧
  (∀ s e : ℕ, i ≤ s → s < e → e ≤ row.length →
    (∀ j, s ≤ j → j < e → SatAt p row j) →
    (s = i ∨ FailAt p row (s - 1)) →
    (e = row.length ∨ FailAt p row e) →
    (s, e) ∈ findRuns p (row.drop i) i)

/-!
Claim theorems and their supporting lemmas.
-/

theorem chDigit_digitChar {d : ℕ} (h : d < 10) : chDigit? (Nat.digitChar d) = some d := by
  interval_cases d <;> decide

theorem digitChar_ne_colon {d : ℕ} (h : d < 10) : Nat.digitChar d ≠ ':' := by
  interval_cases d <;> decide

theorem fmt02_no_colon {n : ℕ} (h : n < 100) : ∀ c ∈ fmt02 n, c ≠ ':' := by
  interval_cases n <;> decide

theorem digitsToNat_fmt02 {n : ℕ} (h : n < 100) : digitsToNat? (fmt02 n) = some n := by
  interval_cases n <;> decide

theorem splitColon_no_colon {l : List Char} (h : ∀ c ∈ l, c ≠ ':') : splitColon l = [l] := by
  induction l with
  | nil => rfl
  | cons c t ih =>
    have hc : c ≠ ':' := h c (List.mem_cons_self c t)
    have ht : ∀ x ∈ t, x ≠ ':' := fun x hx => h x (List.mem_cons_of_mem c hx)
    simp [splitColon, hc, ih ht]

theorem splitColon_append {l1 l2 : List Char} (h : ∀ c ∈ l1, c ≠ ':') :
    splitColon (l1 ++ ':' :: l2) = l1 :: splitColon l2 := by
  induction l1 with
  | nil => simp [splitColon]
  | cons c t ih =>
    have hc : c ≠ ':' := h c (List.mem_cons_self c t)
    have ht : ∀ x ∈ t, x ≠ ':' := fun x hx => h x (List.mem_cons_of_mem c hx)
    simp only [List.cons_append, splitColon, hc, if_false, List.append_eq, ih ht]

/-- C9: for every integer m in [0, 1440), converting m to a zero-padded "HH:MM"
string and parsing it back yields m, i.e. `time_to_minutes (minutes_to_time m) = m`. -/
theorem time_roundtrip : ∀ m : ℕ, m < 1440 → time_to_minutes (minutes_to_time m) = m := by
  intro m hm
  have hq : m / 60 < 100 := by omega
  have hr : m % 60 < 100 := by omega
  have hsplit : splitColon (fmt02 (m / 60) ++ ':' :: fmt02 (m % 60))
      = [fmt02 (m / 60), fmt02 (m % 60)] := by
    rw [splitColon_append (fmt02_no_colon hq),
        splitColon_no_colon (fmt02_no_colon hr)]
  rw [time_to_minutes, minutes_to_time, hsplit]
  simp only [digitsToNat_fmt02 hq, digitsToNat_fmt02 hr]
  omega

/-- Witness for `time_roundtrip` at the concrete minute 570 (= "09:30"). -/
theorem time_roundtrip_witness :
    570 < 1440 ∧ time_to_minutes (minutes_to_time 570) = 570 :=
  ⟨by decide, time_roundtrip 570 (by decide)⟩


/-- C5 (amended): for every raw record whose datetime string fails to parse
under both accepted formats, normalization returns time-of-day 00:00 (minute
0), empty day-of-week, and empty date without raising; the code keeps no
dedicated degenerate-record counter (see the counterexample), so only these
sentinel field values mark the record. -/
theorem parse_failure_fallback (loc : List Char) (idv : ℤ) (dts : List Char)
    (h : parse_datetime dts = none) :
    (processRecord loc idv dts).time = ['0', '0', ':', '0', '0'] ∧
    (processRecord loc idv dts).day_of_week = [] ∧
    (processRecord loc idv dts).date = [] ∧
    time_to_minutes (processRecord loc idv dts).time = 0 := by
  have ht : (processRecord loc idv dts).time = ['0', '0', ':', '0', '0'] := by
    simp [processRecord, extract_time_only, h]
  refine ⟨ht, ?_, ?_, ?_⟩
  · simp [processRecord, get_day_of_week, h]
  · simp [processRecord, extract_date_only, h]
  · rw [ht]; decide

/-- Witness for `parse_failure_fallback`: the string "9/28/25 9:30" (no AM/PM
marker) fails to parse and normalizes to the degenerate record. -/
theorem parse_failure_fallback_witness :
    parse_datetime ['9', '/', '2', '8', '/', '2', '5', ' ', '9', ':', '3', '0'] = none ∧
    ((processRecord [] 1 ['9', '/', '2', '8', '/', '2', '5', ' ', '9', ':', '3', '0']).time
        = ['0', '0', ':', '0', '0'] ∧
      (processRecord [] 1 ['9', '/', '2', '8', '/', '2', '5', ' ', '9', ':', '3', '0']).day_of_week = [] ∧
      (processRecord [] 1 ['9', '/', '2', '8', '/', '2', '5', ' ', '9', ':', '3', '0']).date = [] ∧
      time_to_minutes
        (processRecord [] 1 ['9', '/', '2', '8', '/', '2', '5', ' ', '9', ':', '3', '0']).time = 0) :=
  ⟨by decide, parse_failure_fallback [] 1 _ (by decide)⟩

/-- C5 counterexample: the malformed record (datetime "9/28/25 9:30") parses to
`none`, yet no caller-observable count records it: with operating window
0:00-1:00 the hidden-records report stays `none` and the record is attributed
to slot 0 exactly like a genuine midnight reservation, so no degenerate-record
count is incremented anywhere in the code. -/
theorem degenerate_count_not_surfaced_cex :
    parse_datetime ['9', '/', '2', '8', '/', '2', '5', ' ', '9', ':', '3', '0'] = none ∧
    mainHiddenReport
      [processRecord [] 1 ['9', '/', '2', '8', '/', '2', '5', ' ', '9', ':', '3', '0']]
      0 1 allDatesChars = none ∧
    (((calculate_time_slots
        [processRecord [] 1 ['9', '/', '2', '8', '/', '2', '5', ' ', '9', ':', '3', '0']]
        0 1 none).1).getD 0 defaultSlot).count = 1 := by
  exact ⟨by decide, by decide, by decide⟩

theorem calculate_fst (data : List Item) (sh eh : ℕ) (sel : Option (List Char)) :
    (calculate_time_slots data sh eh sel).1
      = ((dateFilter sel data).filter (inRangeB (sh * 60) (eh * 60))).foldl
          (fun slots it => addItem it slots) (buildSlots sh eh) := rfl

theorem calculate_snd (data : List Item) (sh eh : ℕ) (sel : Option (List Char)) :
    (calculate_time_slots data sh eh sel).2
      = (dateFilter sel data).filter (inRangeB (sh * 60) (eh * 60)) := rfl

theorem length_addItem (item : Item) (slots : List Slot) :
    (addItem item slots).length = slots.length := by
  simp [addItem]

theorem length_foldl_addItem (items : List Item) (slots : List Slot) :
    (items.foldl (fun s it => addItem it s) slots).length = slots.length := by
  induction items generalizing slots with
  | nil => rfl
  | cons it rest ih => rw [List.foldl_cons, ih, length_addItem]

theorem addItem_getD (item : Item) (slots : List Slot) (i : ℕ) (h : i < slots.length) :
    (addItem item slots).getD i defaultSlot =
      (if coversB (time_to_minutes item.time) ((slots.getD i defaultSlot).minutes) then
        { slots.getD i defaultSlot with
          count := (slots.getD i defaultSlot).count + 1,
          reservations := (slots.getD i defaultSlot).reservations ++ [mkAttribution item] }
      else slots.getD i defaultSlot) := by
  have h2 : i < (addItem item slots).length := by rw [length_addItem]; exact h
  rw [List.getD_eq_getElem _ _ h2, List.getD_eq_getElem _ _ h]
  simp [addItem, List.getElem_map]

theorem foldl_addItem_spec (items : List Item) :
    ∀ (slots : List Slot) (i : ℕ), i < slots.length →
      ((items.foldl (fun s it => addItem it s) slots).getD i defaultSlot).time
          = (slots.getD i defaultSlot).time ∧
      ((items.foldl (fun s it => addItem it s) slots).getD i defaultSlot).minutes
          = (slots.getD i defaultSlot).minutes ∧
      ((items.foldl (fun s it => addItem it s) slots).getD i defaultSlot).count
          = (slots.getD i defaultSlot).count
            + items.countP (fun it =>
                coversB (time_to_minutes it.time) ((slots.getD i defaultSlot).minutes)) ∧
      ((items.foldl (fun s it => addItem it s) slots).getD i defaultSlot).reservations
          = (slots.getD i defaultSlot).reservations
            ++ (items.filter (fun it =>
                coversB (time_to_minutes it.time) ((slots.getD i defaultSlot).minutes))).map
                  mkAttribution := by
  induction items with
  | nil => intro slots i h; simp
  | cons it rest ih =>
    intro slots i h
    have h2 : i < (addItem it slots).length := by rw [length_addItem]; exact h
    have hrec := ih (addItem it slots) i h2
    rw [addItem_getD it slots i h] at hrec
    rw [List.foldl_cons]
    by_cases hc : coversB (time_to_minutes it.time) ((slots.getD i defaultSlot).minutes) = true
    · rw [if_pos hc] at hrec
      dsimp only at hrec
      obtain ⟨ht, hm, hcnt, hres⟩ := hrec
      refine ⟨ht, hm, ?_, ?_⟩
      · rw [hcnt, List.countP_cons, if_pos hc]
        omega
      · rw [hres, List.filter_cons, if_pos hc, List.map_cons, List.append_assoc,
          List.singleton_append]
    · rw [if_neg hc] at hrec
      obtain ⟨ht, hm, hcnt, hres⟩ := hrec
      refine ⟨ht, hm, ?_, ?_⟩
      · rw [hcnt, List.countP_cons, if_neg hc, Nat.add_zero]
      · rw [hres, List.filter_cons, if_neg hc]

theorem buildSlots_mem (sh eh : ℕ) :
    ∀ s ∈ buildSlots sh eh, s.count = 0 ∧ s.reservations = [] ∧
      sh * 60 ≤ s.minutes ∧ s.minutes < eh * 60 := by
  intro s hs
  simp only [buildSlots, List.mem_flatMap, List.mem_map] at hs
  obtain ⟨hour, hh, minute, hm, rfl⟩ := hs
  rw [List.mem_range'_1] at hh
  simp only [List.mem_cons, List.not_mem_nil, or_false] at hm
  refine ⟨rfl, rfl, ?_, ?_⟩ <;> rcases hm with rfl | rfl | rfl | rfl | rfl | rfl <;>
    dsimp only <;> omega

/-- C10: every slot returned by `calculate_time_slots` satisfies
`count = length of its reservations list`: each counter increment is paired
with exactly one attribution record. -/
theorem slot_count_matches_attributions (data : List Item) (sh eh : ℕ)
    (sel : Option (List Char)) :
    ∀ slot ∈ (calculate_time_slots data sh eh sel).1,
      slot.count = slot.reservations.length := by
  intro slot hmem
  rw [calculate_fst] at hmem
  rw [List.mem_iff_get] at hmem
  obtain ⟨⟨i, h2⟩, rfl⟩ := hmem
  have hlen : i < (buildSlots sh eh).length := by
    rw [length_foldl_addItem] at h2; exact h2
  obtain ⟨_, _, hcnt, hres⟩ :=
    foldl_addItem_spec ((dateFilter sel data).filter (inRangeB (sh * 60) (eh * 60)))
      (buildSlots sh eh) i hlen
  have hget : (((dateFilter sel data).filter (inRangeB (sh * 60) (eh * 60))).foldl
      (fun s it => addItem it s) (buildSlots sh eh)).getD i defaultSlot
      = (((dateFilter sel data).filter (inRangeB (sh * 60) (eh * 60))).foldl
          (fun s it => addItem it s) (buildSlots sh eh)).get ⟨i, h2⟩ := by
    rw [List.getD_eq_getElem _ _ h2, List.get_eq_getElem]
  have hmem0 : (buildSlots sh eh).getD i defaultSlot ∈ buildSlots sh eh := by
    rw [List.getD_eq_getElem _ _ hlen]
    exact List.getElem_mem hlen
  obtain ⟨hc0, hr0, _, _⟩ := buildSlots_mem sh eh _ hmem0
  rw [hget] at hcnt hres
  rw [hcnt, hres, hc0, hr0, List.nil_append, zero_add, List.length_map]
  exact List.countP_eq_length_filter _ _

/-- Witness for `slot_count_matches_attributions` on a concrete one-reservation
data set over the 9:00-10:00 grid. -/
theorem slot_count_matches_attributions_witness :
    ((calculate_time_slots [sampleItem ['0', '9', ':', '3', '0'] [] []] 9 10 none).1).getD 0
        defaultSlot
      ∈ (calculate_time_slots [sampleItem ['0', '9', ':', '3', '0'] [] []] 9 10 none).1 ∧
    (((calculate_time_slots [sampleItem ['0', '9', ':', '3', '0'] [] []] 9 10 none).1).getD 0
        defaultSlot).count
      = (((calculate_time_slots [sampleItem ['0', '9', ':', '3', '0'] [] []] 9 10 none).1).getD 0
          defaultSlot).reservations.length :=
  ⟨by decide,
    slot_count_matches_attributions [sampleItem ['0', '9', ':', '3', '0'] [] []] 9 10 none _
      (by decide)⟩

theorem length_addRowItem (slots : List Slot) (item : Item) (row : List ℕ) :
    (addRowItem slots item row).length = min slots.length row.length := by
  simp [addRowItem]

theorem addRowItem_getD (slots : List Slot) (item : Item) (row : List ℕ) (i : ℕ)
    (h : i < slots.length) (hr : row.length = slots.length) :
    (addRowItem slots item row).getD i 0 =
      if coversB (time_to_minutes item.time) ((slots.getD i defaultSlot).minutes) then
        row.getD i 0 + 1
      else row.getD i 0 := by
  have hi2 : i < row.length := by omega
  have hm : i < (addRowItem slots item row).length := by rw [length_addRowItem]; omega
  rw [List.getD_eq_getElem _ _ hm, List.getD_eq_getElem _ _ h, List.getD_eq_getElem _ _ hi2]
  simp [addRowItem, List.getElem_map, List.getElem_zip]

theorem length_foldl_addRowItem (items : List Item) (slots : List Slot) :
    ∀ row : List ℕ, row.length = slots.length →
      (items.foldl (fun r it => addRowItem slots it r) row).length = slots.length := by
  induction items with
  | nil => intro row h; exact h
  | cons it rest ih =>
    intro row h
    rw [List.foldl_cons]
    exact ih _ (by rw [length_addRowItem]; omega)

theorem foldl_addRowItem_spec (items : List Item) (slots : List Slot) :
    ∀ (row : List ℕ) (i : ℕ), row.length = slots.length → i < slots.length →
      (items.foldl (fun r it => addRowItem slots it r) row).getD i 0
        = row.getD i 0 + items.countP (fun it =>
            coversB (time_to_minutes it.time) ((slots.getD i defaultSlot).minutes)) := by
  induction items with
  | nil => intro row i hr hi; simp
  | cons it rest ih =>
    intro row i hr hi
    rw [List.foldl_cons, ih _ i (by rw [length_addRowItem]; omega) hi,
      addRowItem_getD slots it row i hi hr, List.countP_cons]
    by_cases hc : coversB (time_to_minutes it.time) ((slots.getD i defaultSlot).minutes) = true
    · rw [if_pos hc, if_pos hc]
      omega
    · rw [if_neg hc, if_neg hc, Nat.add_zero]

theorem groupRow_getD (slots : List Slot) (items : List Item) (i : ℕ) (h : i < slots.length) :
    (groupRow slots items).getD i 0 = items.countP (fun it =>
      coversB (time_to_minutes it.time) ((slots.getD i defaultSlot).minutes)) := by
  rw [groupRow, foldl_addRowItem_spec items slots _ i (by simp) h]
  simp

theorem groupRow_length (slots : List Slot) (items : List Item) :
    (groupRow slots items).length = slots.length := by
  rw [groupRow]
  exact length_foldl_addRowItem items slots _ (by simp)

theorem covers_impl_inRange (sh eh : ℕ) (it : Item) (m : ℕ) (h1 : sh * 60 ≤ m)
    (h2 : m < eh * 60) (hc : coversB (time_to_minutes it.time) m = true) :
    inRangeB (sh * 60) (eh * 60) it = true := by
  simp only [coversB, Bool.and_eq_true, decide_eq_true_eq] at hc
  simp only [inRangeB, Bool.and_eq_true, decide_eq_true_eq]
  omega

/-- C1: every reservation at time-of-day `t` contributes, in the attribution
loop of `calculate_time_slots` and in the per-group counting loop of
`create_heatmap`, exactly to the slots whose start minute lies in the half-open
interval `[t-30, t+30)` (the test `coversB`), and to no other slot: every
produced count equals the number of reservations whose buffered interval
covers that slot's start minute (the count ranges over the whole date-filtered
data set, so out-of-range reservations demonstrably contribute nothing). -/
theorem overlap_attribution_exact :
    (∀ t m : ℕ, coversB t m = true ↔ ((t : ℤ) - 30 ≤ (m : ℤ) ∧ (m : ℤ) < (t : ℤ) + 30)) ∧
    (∀ (data : List Item) (sh eh : ℕ) (sel : Option (List Char)) (i : ℕ),
      i < ((calculate_time_slots data sh eh sel).1).length →
      (((calculate_time_slots data sh eh sel).1).getD i defaultSlot).count
        = (dateFilter sel data).countP (fun it => coversB (time_to_minutes it.time)
            ((((calculate_time_slots data sh eh sel).1).getD i defaultSlot).minutes))) ∧
    (∀ (slots : List Slot) (items : List Item) (i : ℕ), i < slots.length →
      (groupRow slots items).getD i 0 = items.countP (fun it =>
        coversB (time_to_minutes it.time) ((slots.getD i defaultSlot).minutes))) := by
  refine ⟨?_, ?_, ?_⟩
  · intro t m
    simp [coversB]
  · intro data sh eh sel i h
    rw [calculate_fst] at h ⊢
    have hlen : i < (buildSlots sh eh).length := by
      rw [length_foldl_addItem] at h; exact h
    obtain ⟨_, hm, hcnt, _⟩ :=
      foldl_addItem_spec ((dateFilter sel data).filter (inRangeB (sh * 60) (eh * 60)))
        (buildSlots sh eh) i hlen
    have hmem0 : (buildSlots sh eh).getD i defaultSlot ∈ buildSlots sh eh := by
      rw [List.getD_eq_getElem _ _ hlen]
      exact List.getElem_mem hlen
    obtain ⟨hc0, _, hg1, hg2⟩ := buildSlots_mem sh eh _ hmem0
    rw [hcnt, hm, hc0, zero_add, List.countP_filter]
    apply List.countP_congr
    intro it _
    constructor
    · intro hb
      simp only [Bool.and_eq_true] at hb
      exact hb.1
    · intro hb
      simp only [Bool.and_eq_true]
      exact ⟨hb, covers_impl_inRange sh eh it _ hg1 hg2 hb⟩
  · intro slots items i h
    exact groupRow_getD slots items i h

/-- Witness for `overlap_attribution_exact` on a single 09:30 reservation over
the 9:00-10:00 grid: slot 0 (09:00) holds count 1 = the number of covering
reservations. -/
theorem overlap_attribution_exact_witness :
    (coversB 570 540 = true ↔ ((570 : ℤ) - 30 ≤ (540 : ℤ) ∧ (540 : ℤ) < (570 : ℤ) + 30)) ∧
    (0 < ((calculate_time_slots [sampleItem ['0', '9', ':', '3', '0'] [] []] 9 10 none).1).length ∧
      (((calculate_time_slots [sampleItem ['0', '9', ':', '3', '0'] [] []] 9 10 none).1).getD 0
          defaultSlot).count
        = (dateFilter none [sampleItem ['0', '9', ':', '3', '0'] [] []]).countP
            (fun it => coversB (time_to_minutes it.time)
              ((((calculate_time_slots [sampleItem ['0', '9', ':', '3', '0'] [] []] 9 10
                  none).1).getD 0 defaultSlot).minutes))) :=
  ⟨overlap_attribution_exact.1 570 540,
    by decide,
    overlap_attribution_exact.2.1 [sampleItem ['0', '9', ':', '3', '0'] [] []] 9 10 none 0
      (by decide)⟩

theorem calc_slots_minutes_grid (data : List Item) (sh eh : ℕ) (sel : Option (List Char)) :
    ∀ s ∈ (calculate_time_slots data sh eh sel).1,
      sh * 60 ≤ s.minutes ∧ s.minutes < eh * 60 := by
  intro s hs
  rw [calculate_fst, List.mem_iff_get] at hs
  obtain ⟨⟨i, h2⟩, rfl⟩ := hs
  have hlen : i < (buildSlots sh eh).length := by
    rw [length_foldl_addItem] at h2; exact h2
  obtain ⟨_, hm, _, _⟩ :=
    foldl_addItem_spec ((dateFilter sel data).filter (inRangeB (sh * 60) (eh * 60)))
      (buildSlots sh eh) i hlen
  have hget : (((dateFilter sel data).filter (inRangeB (sh * 60) (eh * 60))).foldl
      (fun s it => addItem it s) (buildSlots sh eh)).getD i defaultSlot
      = (((dateFilter sel data).filter (inRangeB (sh * 60) (eh * 60))).foldl
          (fun s it => addItem it s) (buildSlots sh eh)).get ⟨i, h2⟩ := by
    rw [List.getD_eq_getElem _ _ h2, List.get_eq_getElem]
  have hmem0 : (buildSlots sh eh).getD i defaultSlot ∈ buildSlots sh eh := by
    rw [List.getD_eq_getElem _ _ hlen]
    exact List.getElem_mem hlen
  obtain ⟨_, _, hg1, hg2⟩ := buildSlots_mem sh eh _ hmem0
  rw [hget] at hm
  rw [hm]
  exact ⟨hg1, hg2⟩

theorem length_countP_split {α : Type} (p : α → Bool) (l : List α) :
    l.length = l.countP p + l.countP (fun a => !(p a)) := by
  rw [List.length_eq_countP_add_countP p]
  congr 1
  apply List.countP_congr
  intro x _
  cases hpx : p x <;> simp [hpx]

theorem main_total_original_eq (data : List Item) (selRaw : List Char) (hne : ¬selRaw = []) :
    (data.filter (fun it =>
        decide (selRaw = allDatesChars) || decide (it.location_date = selRaw))).length
      = (dateFilter (if selRaw = allDatesChars then none else some selRaw) data).length := by
  by_cases h : selRaw = allDatesChars
  · subst h
    simp [dateFilter]
  · simp [dateFilter, h, hne]

/-- C2 (amended): provided the selected date label is non-empty (the empty
label only arises from malformed records, see the counterexample), a
reservation enters slot attribution iff it survives the date filter and its
buffered interval meets the grid range (`t+30 > startHour*60` and
`t-30 < endHour*60`); every excluded reservation covers no slot of the grid;
and the number of range-excluded reservations is exactly the caller-facing
hidden-records count, reported when positive. -/
theorem hidden_count_reported (data : List Item) (sh eh : ℕ) (selRaw : List Char)
    (hne : ¬selRaw = []) :
    (∀ it : Item,
      it ∈ (calculate_time_slots data sh eh
          (if selRaw = allDatesChars then none else some selRaw)).2
        ↔ it ∈ dateFilter (if selRaw = allDatesChars then none else some selRaw) data
            ∧ inRangeB (sh * 60) (eh * 60) it = true) ∧
    (∀ it ∈ dateFilter (if selRaw = allDatesChars then none else some selRaw) data,
      inRangeB (sh * 60) (eh * 60) it = false →
      ∀ s ∈ (calculate_time_slots data sh eh
          (if selRaw = allDatesChars then none else some selRaw)).1,
        coversB (time_to_minutes it.time) s.minutes = false) ∧
    ((dateFilter (if selRaw = allDatesChars then none else some selRaw) data).length
      = (calculate_time_slots data sh eh
          (if selRaw = allDatesChars then none else some selRaw)).2.length
        + (dateFilter (if selRaw = allDatesChars then none else some selRaw) data).countP
            (fun it => !(inRangeB (sh * 60) (eh * 60) it))) ∧
    (mainHiddenReport data sh eh selRaw
      = if (dateFilter (if selRaw = allDatesChars then none else some selRaw) data).countP
            (fun it => !(inRangeB (sh * 60) (eh * 60) it)) = 0
        then none
        else some ((dateFilter (if selRaw = allDatesChars then none else some selRaw)
            data).countP (fun it => !(inRangeB (sh * 60) (eh * 60) it)))) := by
  have hlen2 : (calculate_time_slots data sh eh
      (if selRaw = allDatesChars then none else some selRaw)).2.length
      = (dateFilter (if selRaw = allDatesChars then none else some selRaw) data).countP
          (inRangeB (sh * 60) (eh * 60)) := by
    rw [calculate_snd]
    exact (List.countP_eq_length_filter _ _).symm
  refine ⟨?_, ?_, ?_, ?_⟩
  · intro it
    rw [calculate_snd, List.mem_filter]
  · intro it _ hout s hs
    obtain ⟨hg1, hg2⟩ := calc_slots_minutes_grid data sh eh _ s hs
    by_cases hc : coversB (time_to_minutes it.time) s.minutes = true
    · have := covers_impl_inRange sh eh it s.minutes hg1 hg2 hc
      rw [hout] at this
      cases this
    · simp only [Bool.not_eq_true] at hc
      exact hc
  · rw [hlen2]
    exact length_countP_split (inRangeB (sh * 60) (eh * 60)) _
  · have htot := main_total_original_eq data selRaw hne
    have hsplit := length_countP_split (inRangeB (sh * 60) (eh * 60))
      (dateFilter (if selRaw = allDatesChars then none else some selRaw) data)
    rw [mainHiddenReport]
    simp only [htot, hlen2]
    by_cases hE : (dateFilter (if selRaw = allDatesChars then none else some selRaw)
        data).countP (fun it => !(inRangeB (sh * 60) (eh * 60) it)) = 0
    · rw [if_neg (by omega), if_pos hE]
    · rw [if_pos (by omega), if_neg hE]
      congr 1
      omega

/-- Witness for `hidden_count_reported`: with "All Dates" selected, a 09:30
reservation and a 23:30 reservation over the 8:00-18:00 grid, the hidden
report is exactly `some 1` (the 23:30 buffer misses the grid). -/
theorem hidden_count_reported_witness :
    ¬allDatesChars = ([] : List Char) ∧
    mainHiddenReport
      [sampleItem ['0', '9', ':', '3', '0'] [] [], sampleItem ['2', '3', ':', '3', '0'] [] []]
      8 18 allDatesChars = some 1 := by
  refine ⟨by decide, ?_⟩
  have h := (hidden_count_reported
    [sampleItem ['0', '9', ':', '3', '0'] [] [], sampleItem ['2', '3', ':', '3', '0'] [] []]
    8 18 allDatesChars (by decide)).2.2.2
  rw [h]
  decide

/-- C2 counterexample: with the empty date label selected (possible exactly
when malformed records exist), the engine skips the date filter while the
caller's recount keeps only empty-label records, so the claimed identity
"reported hidden count = number of range-excluded reservations" fails: one
reservation is range-excluded, yet no hidden count is reported. -/
theorem hidden_count_empty_label_cex :
    mainHiddenReport
      [sampleItem ['0', '9', ':', '3', '0'] ['9', '/', '2', '8'] [],
       sampleItem ['0', '0', ':', '0', '0'] [] []] 8 18 [] = none ∧
    (dateFilter (some [])
      [sampleItem ['0', '9', ':', '3', '0'] ['9', '/', '2', '8'] [],
       sampleItem ['0', '0', ':', '0', '0'] [] []]).countP
        (fun it => !(inRangeB (8 * 60) (18 * 60) it)) = 1 := by
  exact ⟨by decide, by decide⟩

/-- C4 counterexample: with hours 8:00-18:00 and reservations at 09:30 and
09:45, the slots with occupancy 2 are those with start minute in
[555, 615) ∩ [540, 600) = [09:15, 10:00), namely 09:20, 09:30, 09:40 and 09:50
— not the pair {09:40, 09:50} stated by the claim. -/
theorem scenario_two_reservations_cex :
    (((calculate_time_slots
        [sampleItem ['0', '9', ':', '3', '0'] ['9', '/', '2', '8'] [],
         sampleItem ['0', '9', ':', '4', '5'] ['9', '/', '2', '8'] []] 8 18 none).1).filter
        (fun s => decide (s.count = 2))).map (fun s => s.minutes) = [560, 570, 580, 590] ∧
    ¬((((calculate_time_slots
        [sampleItem ['0', '9', ':', '3', '0'] ['9', '/', '2', '8'] [],
         sampleItem ['0', '9', ':', '4', '5'] ['9', '/', '2', '8'] []] 8 18 none).1).filter
        (fun s => decide (s.count = 2))).map (fun s => s.minutes) = [580, 590]) := by
  exact ⟨by decide, by decide⟩

/-- C4 (amended): with operating hours 8:00-18:00 and exactly two reservations
at 09:30 and 09:45 on the same date and location, the set of slots with
occupancy count 2 is exactly {09:20, 09:30, 09:40, 09:50} (start minutes
[555, 615) ∩ [540, 600) intersected with the grid), and every per-slot count
equals the sum of the two buffered-interval indicators. -/
theorem scenario_two_reservations :
    (((calculate_time_slots
        [sampleItem ['0', '9', ':', '3', '0'] ['9', '/', '2', '8'] [],
         sampleItem ['0', '9', ':', '4', '5'] ['9', '/', '2', '8'] []] 8 18 none).1).filter
        (fun s => decide (s.count = 2))).map (fun s => s.minutes) = [560, 570, 580, 590] ∧
    (((calculate_time_slots
        [sampleItem ['0', '9', ':', '3', '0'] ['9', '/', '2', '8'] [],
         sampleItem ['0', '9', ':', '4', '5'] ['9', '/', '2', '8'] []] 8 18 none).1).filter
        (fun s => decide (s.count = 2))).map (fun s => s.time)
      = [['0', '9', ':', '2', '0'], ['0', '9', ':', '3', '0'],
         ['0', '9', ':', '4', '0'], ['0', '9', ':', '5', '0']] ∧
    ∀ s ∈ (calculate_time_slots
        [sampleItem ['0', '9', ':', '3', '0'] ['9', '/', '2', '8'] [],
         sampleItem ['0', '9', ':', '4', '5'] ['9', '/', '2', '8'] []] 8 18 none).1,
      s.count = (if coversB 570 s.minutes then 1 else 0)
        + (if coversB 585 s.minutes then 1 else 0) := by
  refine ⟨by decide, by decide, by decide⟩


/-- C8 counterexample: the utilization computation does not fail fast on a
non-positive cap; with cap 0 the weekly row is computed to completion and the
utilization cells are silently 0 (a slot with average 1 still produces a
well-formed row `[1, 0, 0, 0]`), contradicting the claimed precondition
violation. -/
theorem util_zero_cap_silent_cex :
    utilPct 1 0 = 0 ∧
    weeklyRowFull [sampleItem ['0', '8', ':', '0', '0'] ['9', '/', '2', '9'] ['M', 'o']]
      [⟨['0', '8', ':', '0', '0'], 480, 0, []⟩] 0 ['M', 'o'] = [1, 0, 0, 0] := by
  constructor
  · norm_num [utilPct]
  · have h1 : dayHits [sampleItem ['0', '8', ':', '0', '0'] ['9', '/', '2', '9'] ['M', 'o']]
        [⟨['0', '8', ':', '0', '0'], 480, 0, []⟩] ['M', 'o'] 0 = 1 := by decide
    have h2 : numDatesForDay [sampleItem ['0', '8', ':', '0', '0'] ['9', '/', '2', '9'] ['M', 'o']]
        ['M', 'o'] = 1 := by decide
    have hr1 : List.range 1 = [0] := by decide
    rw [weeklyRowFull, weeklySlotVals, weeklyAvgUtil, weeklyTotalUtil]
    norm_num [hr1, h1, h2, utilPct]

/-- C8 (amended): the utilization computation is a total function that guards
the division: for every non-positive capacity cap it silently produces
utilization 0 (the `else 0` branch) instead of failing fast. -/
theorem util_nonpositive_cap_zero (avg : ℚ) (cap : ℤ) (h : cap ≤ 0) :
    utilPct avg cap = 0 := by
  rw [utilPct, if_neg (by omega)]

/-- Witness for `util_nonpositive_cap_zero` at average 5 and cap -2. -/
theorem util_nonpositive_cap_zero_witness :
    (-2 : ℤ) ≤ 0 ∧ utilPct 5 (-2) = 0 :=
  ⟨by decide, util_nonpositive_cap_zero 5 (-2) (by decide)⟩

theorem createHeatmap_numDates_def (slots : List Slot) (data : List Item)
    (loc : Option (List Char)) :
    (createHeatmap slots data loc).numDates
      = (sortStable (fun k1 k2 => dtLtB (sortKeyOf data k1) (sortKeyOf data k2))
          (firstOccKeys data)).length := rfl

theorem createHeatmap_rows_def (slots : List Slot) (data : List Item)
    (loc : Option (List Char)) :
    (createHeatmap slots data loc).rows
      = (sortStable (fun k1 k2 => dtLtB (sortKeyOf data k1) (sortKeyOf data k2))
          (firstOccKeys data)).reverse.map (fun k => groupRow slots (groupItems data k)) := rfl

theorem createHeatmap_sumRow_def (slots : List Slot) (data : List Item)
    (loc : Option (List Char)) :
    (createHeatmap slots data loc).sumRow
      = (createHeatmap slots data loc).rows.foldl
          (fun acc r => List.zipWith (fun a b => a + b) acc r)
          (List.replicate slots.length 0) := rfl

theorem createHeatmap_avgRow_def (slots : List Slot) (data : List Item)
    (loc : Option (List Char)) :
    (createHeatmap slots data loc).avgRow
      = if 0 < (createHeatmap slots data loc).numDates then
          (createHeatmap slots data loc).sumRow.map
            (fun v : ℕ => pyRound ((v : ℚ) / ((createHeatmap slots data loc).numDates : ℚ)))
        else (createHeatmap slots data loc).sumRow.map (fun v : ℕ => (v : ℤ)) := rfl

theorem foldl_zipadd_length (rows : List (List ℕ)) :
    ∀ acc : List ℕ, (∀ r ∈ rows, r.length = acc.length) →
      (rows.foldl (fun a r => List.zipWith (fun x y => x + y) a r) acc).length = acc.length := by
  induction rows with
  | nil => intro acc _; rfl
  | cons r rest ih =>
    intro acc hlen
    have hr : r.length = acc.length := hlen r (List.mem_cons_self r rest)
    have hz : (List.zipWith (fun x y => x + y) acc r).length = acc.length := by
      rw [List.length_zipWith]; omega
    rw [List.foldl_cons,
      ih _ (fun r2 hr2 => by rw [hz]; exact hlen r2 (List.mem_cons_of_mem r hr2)), hz]

theorem foldl_zipadd_getD (rows : List (List ℕ)) :
    ∀ (acc : List ℕ) (i : ℕ), (∀ r ∈ rows, r.length = acc.length) → i < acc.length →
      (rows.foldl (fun a r => List.zipWith (fun x y => x + y) a r) acc).getD i 0
        = acc.getD i 0 + (rows.map (fun r => r.getD i 0)).sum := by
  induction rows with
  | nil => intro acc i _ _; simp
  | cons r rest ih =>
    intro acc i hlen hi
    have hr : r.length = acc.length := hlen r (List.mem_cons_self r rest)
    have hz : (List.zipWith (fun x y => x + y) acc r).length = acc.length := by
      rw [List.length_zipWith]; omega
    rw [List.foldl_cons,
      ih _ i (fun r2 hr2 => by rw [hz]; exact hlen r2 (List.mem_cons_of_mem r hr2)) (by omega)]
    have hpt : (List.zipWith (fun x y => x + y) acc r).getD i 0 = acc.getD i 0 + r.getD i 0 := by
      rw [List.getD_eq_getElem _ _ (by omega : i < (List.zipWith (fun x y => x + y) acc r).length),
        List.getElem_zipWith, List.getD_eq_getElem _ _ hi,
        List.getD_eq_getElem _ _ (by omega : i < r.length)]
    rw [hpt, List.map_cons, List.sum_cons]
    omega

/-- C3 (amended): the average row of `create_heatmap` equals, at each slot,
Python 3's `round` — nearest integer with ties to even, not half away from
zero — of (sum of all per-group row values at that slot) / (number of groups);
with zero groups the average row is all zeros. -/
theorem average_row_half_even (slots : List Slot) (data : List Item)
    (loc : Option (List Char)) :
    ((createHeatmap slots data loc).numDates = 0 →
      (createHeatmap slots data loc).avgRow = List.replicate slots.length 0) ∧
    (0 < (createHeatmap slots data loc).numDates →
      ∀ i, i < slots.length →
        (createHeatmap slots data loc).avgRow.getD i 0
          = pyRound
              ((((createHeatmap slots data loc).rows.map (fun r => (r.getD i 0 : ℚ))).sum)
                / ((createHeatmap slots data loc).numDates : ℚ))) := by
  constructor
  · intro h0
    have hkeys : sortStable (fun k1 k2 => dtLtB (sortKeyOf data k1) (sortKeyOf data k2))
        (firstOccKeys data) = [] := by
      rw [← List.length_eq_zero, ← createHeatmap_numDates_def slots data loc]
      exact h0
    rw [createHeatmap_avgRow_def, if_neg (by omega), createHeatmap_sumRow_def,
      createHeatmap_rows_def, hkeys]
    simp only [List.reverse_nil, List.map_nil, List.foldl_nil, List.map_replicate, Nat.cast_zero]
  · intro hpos i hi
    have hrowlen : ∀ r ∈ (createHeatmap slots data loc).rows,
        r.length = (List.replicate slots.length (0 : ℕ)).length := by
      intro r hr
      rw [createHeatmap_rows_def, List.mem_map] at hr
      obtain ⟨k, _, rfl⟩ := hr
      rw [groupRow_length, List.length_replicate]
    have hslen : (createHeatmap slots data loc).sumRow.length = slots.length := by
      rw [createHeatmap_sumRow_def, foldl_zipadd_length _ _ hrowlen, List.length_replicate]
    have hsum : (createHeatmap slots data loc).sumRow.getD i 0
        = ((createHeatmap slots data loc).rows.map (fun r => r.getD i 0)).sum := by
      rw [createHeatmap_sumRow_def, foldl_zipadd_getD _ _ i hrowlen (by simp [hi])]
      simp
    have hidx : i < (createHeatmap slots data loc).sumRow.length := by rw [hslen]; exact hi
    have hlen1 : i < ((createHeatmap slots data loc).sumRow.map
        (fun v : ℕ => pyRound ((v : ℚ)
          / ((createHeatmap slots data loc).numDates : ℚ)))).length := by
      rw [List.length_map]; exact hidx
    rw [createHeatmap_avgRow_def, if_pos hpos, List.getD_eq_getElem _ _ hlen1, List.getElem_map]
    rw [List.getD_eq_getElem _ _ hidx] at hsum
    rw [hsum, Nat.cast_list_sum, List.map_map]
    rfl

/-- Witness for `average_row_half_even` on two one-slot groups with column sum
1: the positive-group branch applies and the average entry is `pyRound` of the
column mean. -/
theorem average_row_half_even_witness :
    0 < (createHeatmap [⟨['0', '8', ':', '0', '0'], 480, 0, []⟩]
          [sampleItem ['0', '8', ':', '0', '0'] ['9', '/', '2', '8'] [],
           sampleItem ['1', '2', ':', '0', '0'] ['9', '/', '2', '9'] []] none).numDates ∧
    (createHeatmap [⟨['0', '8', ':', '0', '0'], 480, 0, []⟩]
        [sampleItem ['0', '8', ':', '0', '0'] ['9', '/', '2', '8'] [],
         sampleItem ['1', '2', ':', '0', '0'] ['9', '/', '2', '9'] []] none).avgRow.getD 0 0
      = pyRound
          ((((createHeatmap [⟨['0', '8', ':', '0', '0'], 480, 0, []⟩]
                [sampleItem ['0', '8', ':', '0', '0'] ['9', '/', '2', '8'] [],
                 sampleItem ['1', '2', ':', '0', '0'] ['9', '/', '2', '9'] []]
                none).rows.map (fun r => (r.getD 0 0 : ℚ))).sum)
            / ((createHeatmap [⟨['0', '8', ':', '0', '0'], 480, 0, []⟩]
                [sampleItem ['0', '8', ':', '0', '0'] ['9', '/', '2', '8'] [],
                 sampleItem ['1', '2', ':', '0', '0'] ['9', '/', '2', '9'] []]
                none).numDates : ℚ)) :=
  ⟨by decide,
    (average_row_half_even [⟨['0', '8', ':', '0', '0'], 480, 0, []⟩]
      [sampleItem ['0', '8', ':', '0', '0'] ['9', '/', '2', '8'] [],
       sampleItem ['1', '2', ':', '0', '0'] ['9', '/', '2', '9'] []] none).2 (by decide) 0
      (by decide)⟩

/-- C3 counterexample: two groups whose values at the single slot are 1 and 0
give mean 1/2; rounding half away from zero would give `round (1/2) = 1`, but
the code (Python 3 `round`, ties to even) produces 0 in the average row. -/
theorem average_row_rounding_cex :
    (createHeatmap [⟨['0', '8', ':', '0', '0'], 480, 0, []⟩]
      [sampleItem ['0', '8', ':', '0', '0'] ['9', '/', '2', '8'] [],
       sampleItem ['1', '2', ':', '0', '0'] ['9', '/', '2', '9'] []] none).avgRow = [0] ∧
    round ((1 : ℚ) / 2) = 1 ∧ pyRound ((1 : ℚ) / 2) = 0 := by
  refine ⟨?_, by norm_num [round_eq], by norm_num [pyRound, Int.fract]⟩
  have hnum : (createHeatmap [⟨['0', '8', ':', '0', '0'], 480, 0, []⟩]
      [sampleItem ['0', '8', ':', '0', '0'] ['9', '/', '2', '8'] [],
       sampleItem ['1', '2', ':', '0', '0'] ['9', '/', '2', '9'] []] none).numDates = 2 := by
    decide
  have hsum : (createHeatmap [⟨['0', '8', ':', '0', '0'], 480, 0, []⟩]
      [sampleItem ['0', '8', ':', '0', '0'] ['9', '/', '2', '8'] [],
       sampleItem ['1', '2', ':', '0', '0'] ['9', '/', '2', '9'] []] none).sumRow = [1] := by
    decide
  rw [createHeatmap_avgRow_def, hnum, hsum, if_pos (by omega)]
  simp only [List.map_cons, List.map_nil]
  norm_num [pyRound, Int.fract]

theorem findRuns_cons {α : Type} (p : α → Bool) (a : α) (t : List α) (i : ℕ) :
    findRuns p (a :: t) i =
      if p a then
        match findRuns p t (i + 1) with
        | [] => [(i, i + 1)]
        | (s, e) :: rs => if s = i + 1 then (i, e) :: rs else (i, i + 1) :: (s, e) :: rs
      else findRuns p t (i + 1) := rfl

theorem sat_fail_absurd {α : Type} {p : α → Bool} {row : List α} {j : ℕ}
    (h1 : SatAt p row j) (h2 : FailAt p row j) : False := by
  obtain ⟨a1, ha1, hp1⟩ := h1
  obtain ⟨a2, ha2, hp2⟩ := h2
  rw [ha1, Option.some_inj] at ha2
  subst ha2
  rw [hp1] at hp2
  exact Bool.noConfusion hp2

theorem fail_of_not_sat {α : Type} {p : α → Bool} {row : List α} {j : ℕ}
    (hj : j < row.length) (h : ¬SatAt p row j) : FailAt p row j := by
  have hsome : row[j]? = some (row.get ⟨j, hj⟩) := by
    rw [List.get_eq_getElem, List.getElem?_eq_getElem hj]
  cases hpb : p (row.get ⟨j, hj⟩) with
  | true => exact absurd ⟨_, hsome, hpb⟩ h
  | false => exact ⟨_, hsome, hpb⟩

theorem runsSpec_of_empty {α : Type} (p : α → Bool) (row : List α) (i : ℕ)
    (hli : row.length ≤ i) : RunsSpec p row i := by
  have hnil : row.drop i = [] := List.drop_eq_nil_iff_le.mpr hli
  rw [RunsSpec, hnil]
  refine ⟨by simp [findRuns], by simp [findRuns], by simp [findRuns], by simp [findRuns],
    by simp [findRuns], ?_, by simp [findRuns], ?_⟩
  · intro j h1 h2 _
    omega
  · intro s e h1 h2 h3 _ _ _
    omega

theorem runsSpec_all {α : Type} (p : α → Bool) (row : List α) :
    ∀ n i : ℕ, row.length - i ≤ n → RunsSpec p row i := by
  intro n
  induction n with
  | zero =>
    intro i hle
    exact runsSpec_of_empty p row i (by omega)
  | succ m ih =>
    intro i hle
    cases hdrop : row.drop i with
    | nil => exact runsSpec_of_empty p row i (List.drop_eq_nil_iff_le.mp hdrop)
    | cons a t =>
      have hia : row[i]? = some a := by
        have h0 := List.getElem?_drop row i 0
        rw [hdrop] at h0
        simpa using h0.symm
      have hlen_i : i < row.length := (List.getElem?_eq_some.mp hia).1
      have hti : t = row.drop (i + 1) := by
        rw [← List.tail_drop, hdrop]
        rfl
      have hspec := ih (i + 1) (by omega)
      rw [RunsSpec, ← hti] at hspec
      obtain ⟨ihA, ihG, ihB, ihC, ihD, ihE, ihF, ihH⟩ := hspec
      by_cases hpa : p a = true
      · have hsatI : SatAt p row i := ⟨a, hia, hpa⟩
        cases hrest : findRuns p t (i + 1) with
        | nil =>
          rw [hrest] at ihE ihH
          have hout : findRuns p (row.drop i) i = [(i, i + 1)] := by
            rw [hdrop, findRuns_cons, hrest, if_pos hpa]
          have hNoSat : ∀ j, i + 1 ≤ j → j < row.length → ¬SatAt p row j := by
            intro j h1 h2 hs
            obtain ⟨r, hr, _⟩ := ihE j h1 h2 hs
            exact absurd hr (List.not_mem_nil r)
          rw [RunsSpec, hout]
          refine ⟨?_, ?_, ?_, ?_, ?_, ?_, ?_, ?_⟩
          · intro r hr
            rw [List.mem_singleton] at hr
            subst hr
            exact ⟨le_refl i, by omega, by omega⟩
          · intro r _ _
            exact hsatI
          · intro r hr j h1 h2
            rw [List.mem_singleton] at hr
            subst hr
            have hj : j = i := by omega
            rw [hj]
            exact hsatI
          · intro r hr
            rw [List.mem_singleton] at hr
            subst hr
            exact Or.inl rfl
          · intro r hr
            rw [List.mem_singleton] at hr
            subst hr
            by_cases hl : i + 1 < row.length
            · exact Or.inr (fail_of_not_sat hl (hNoSat (i + 1) (le_refl _) hl))
            · left
              show i + 1 = row.length
              omega
          · intro j h1 h2 hs
            by_cases hji : j = i
            · exact ⟨(i, i + 1), List.mem_singleton.mpr rfl, by omega, by omega⟩
            · exact absurd hs (hNoSat j (by omega) h2)
          · exact List.pairwise_singleton _ _
          · intro s e h1 h2 h3 hin hleft hright
            by_cases hsi : s = i
            · have he : e = i + 1 := by
                by_contra hne
                have he2 : i + 1 < e := by omega
                exact hNoSat (i + 1) (le_refl _) (by omega) (hin (i + 1) (by omega) he2)
              rw [List.mem_singleton, hsi, he]
            · exfalso
              have hfail : FailAt p row (s - 1) := by
                rcases hleft with h | h
                · exact absurd h hsi
                · exact h
              by_cases hs1 : s = i + 1
              · apply sat_fail_absurd hsatI
                rw [hs1] at hfail
                simpa using hfail
              · have hmem := ihH s e (by omega) h2 h3 hin (Or.inr hfail) hright
                exact absurd hmem (List.not_mem_nil _)
        | cons r0 rs =>
          obtain ⟨s0, e0⟩ := r0
          rw [hrest] at ihA ihG ihB ihC ihD ihE ihF ihH
          obtain ⟨hb1, hb2, hb3⟩ := ihA (s0, e0) (List.mem_cons_self _ _)
          rw [List.pairwise_cons] at ihF
          by_cases hs0 : s0 = i + 1
          · subst hs0
            have hout : findRuns p (row.drop i) i = (i, e0) :: rs := by
              rw [hdrop, findRuns_cons, hrest, if_pos hpa]
              simp
            rw [RunsSpec, hout]
            refine ⟨?_, ?_, ?_, ?_, ?_, ?_, ?_, ?_⟩
            · intro r hr
              rw [List.mem_cons] at hr
              rcases hr with hr | hr
              · subst hr
                exact ⟨le_refl i, by omega, hb3⟩
              · obtain ⟨c1, c2, c3⟩ := ihA r (List.mem_cons_of_mem _ hr)
                exact ⟨by omega, c2, c3⟩
            · intro r _ _
              exact hsatI
            · intro r hr j h1 h2
              rw [List.mem_cons] at hr
              rcases hr with hr | hr
              · subst hr
                by_cases hji : j = i
                · rw [hji]
                  exact hsatI
                · exact ihB (i + 1, e0) (List.mem_cons_self _ _) j (by omega) h2
              · exact ihB r (List.mem_cons_of_mem _ hr) j h1 h2
            · intro r hr
              rw [List.mem_cons] at hr
              rcases hr with hr | hr
              · subst hr
                exact Or.inl rfl
              · rcases ihC r (List.mem_cons_of_mem _ hr) with h | h
                · exfalso
                  have := ihF.1 r hr
                  omega
                · exact Or.inr h
            · intro r hr
              rw [List.mem_cons] at hr
              rcases hr with hr | hr
              · subst hr
                exact ihD (i + 1, e0) (List.mem_cons_self _ _)
              · exact ihD r (List.mem_cons_of_mem _ hr)
            · intro j h1 h2 hs
              by_cases hji : j = i
              · exact ⟨(i, e0), List.mem_cons_self _ _, by omega, by omega⟩
              · obtain ⟨r, hr, hr1, hr2⟩ := ihE j (by omega) h2 hs
                rw [List.mem_cons] at hr
                rcases hr with hr | hr
                · subst hr
                  exact ⟨(i, e0), List.mem_cons_self _ _, by omega, by omega⟩
                · exact ⟨r, List.mem_cons_of_mem _ hr, hr1, hr2⟩
            · rw [List.pairwise_cons]
              exact ⟨fun r hr => ihF.1 r hr, ihF.2⟩
            · intro s e h1 h2 h3 hin hleft hright
              by_cases hsi : s = i
              · have he : e = e0 := by
                  by_contra hne
                  by_cases hlt : e < e0
                  · have hsate : SatAt p row e :=
                      ihB (i + 1, e0) (List.mem_cons_self _ _) e (by omega) hlt
                    rcases hright with h | h
                    · omega
                    · exact sat_fail_absurd hsate h
                  · have hgt : e0 < e := by omega
                    have hsate0 : SatAt p row e0 := hin e0 (by omega) hgt
                    rcases ihD (i + 1, e0) (List.mem_cons_self _ _) with h | h
                    · simp only at h
                      omega
                    · exact sat_fail_absurd hsate0 h
                rw [hsi, he]
                exact List.mem_cons_self _ _
              · have hfail : FailAt p row (s - 1) := by
                  rcases hleft with h | h
                  · exact absurd h hsi
                  · exact h
                by_cases hs1 : s = i + 1
                · exfalso
                  apply sat_fail_absurd hsatI
                  rw [hs1] at hfail
                  simpa using hfail
                · have hmem := ihH s e (by omega) h2 h3 hin (Or.inr hfail) hright
                  rw [List.mem_cons] at hmem
                  rcases hmem with hmem | hmem
                  · exfalso
                    have hfst : s = i + 1 := by
                      have := congrArg Prod.fst hmem
                      simpa using this
                    exact hs1 hfst
                  · exact List.mem_cons_of_mem _ hmem
          · have hout : findRuns p (row.drop i) i = (i, i + 1) :: (s0, e0) :: rs := by
              rw [hdrop, findRuns_cons, hrest, if_pos hpa]
              simp [hs0]
            have hfail0 : FailAt p row (s0 - 1) := by
              rcases ihC (s0, e0) (List.mem_cons_self _ _) with h | h
              · exact absurd h hs0
              · exact h
            have hs0ge : i + 2 ≤ s0 := by
              simp only at hb1
              omega
            rw [RunsSpec, hout]
            refine ⟨?_, ?_, ?_, ?_, ?_, ?_, ?_, ?_⟩
            · intro r hr
              rw [List.mem_cons] at hr
              rcases hr with hr | hr
              · subst hr
                exact ⟨le_refl i, by omega, by omega⟩
              · obtain ⟨c1, c2, c3⟩ := ihA r hr
                exact ⟨by omega, c2, c3⟩
            · intro r _ _
              exact hsatI
            · intro r hr j h1 h2
              rw [List.mem_cons] at hr
              rcases hr with hr | hr
              · subst hr
                have hj : j = i := by omega
                rw [hj]
                exact hsatI
              · exact ihB r hr j h1 h2
            · intro r hr
              rw [List.mem_cons] at hr
              rcases hr with hr | hr
              · subst hr
                exact Or.inl rfl
              · rw [List.mem_cons] at hr
                rcases hr with hr | hr
                · subst hr
                  exact Or.inr hfail0
                · rcases ihC r (List.mem_cons_of_mem _ hr) with h | h
                  · exfalso
                    have := ihF.1 r hr
                    omega
                  · exact Or.inr h
            · intro r hr
              rw [List.mem_cons] at hr
              rcases hr with hr | hr
              · subst hr
                by_cases hl : i + 1 < row.length
                · right
                  show FailAt p row (i + 1)
                  apply fail_of_not_sat hl
                  intro hs
                  obtain ⟨r2, hr2, hr21, hr22⟩ := ihE (i + 1) (le_refl _) hl hs
                  rw [List.mem_cons] at hr2
                  rcases hr2 with hr2 | hr2
                  · rw [hr2] at hr21
                    simp only at hr21
                    omega
                  · obtain ⟨c1, _, _⟩ := ihA r2 (List.mem_cons_of_mem _ hr2)
                    have := ihF.1 r2 hr2
                    simp only at this
                    omega
                · left
                  show i + 1 = row.length
                  omega
              · exact ihD r hr
            · intro j h1 h2 hs
              by_cases hji : j = i
              · exact ⟨(i, i + 1), List.mem_cons_self _ _, by omega, by omega⟩
              · obtain ⟨r, hr, hr1, hr2⟩ := ihE j (by omega) h2 hs
                exact ⟨r, List.mem_cons_of_mem _ hr, hr1, hr2⟩
            · rw [List.pairwise_cons]
              constructor
              · intro r hr
                rw [List.mem_cons] at hr
                rcases hr with hr | hr
                · rw [hr]
                  show i + 1 < s0
                  omega
                · have := ihF.1 r hr
                  show i + 1 < r.1
                  simp only at this
                  omega
              · rw [List.pairwise_cons]
                exact ⟨fun r hr => ihF.1 r hr, ihF.2⟩
            · intro s e h1 h2 h3 hin hleft hright
              by_cases hsi : s = i
              · have he : e = i + 1 := by
                  by_contra hne
                  have he2 : i + 1 < e := by omega
                  have hsat1 : SatAt p row (i + 1) := hin (i + 1) (by omega) he2
                  obtain ⟨r, hr, hr1, hr2⟩ := ihE (i + 1) (le_refl _) (by omega) hsat1
                  rw [List.mem_cons] at hr
                  rcases hr with hr | hr
                  · rw [hr] at hr1
                    simp only at hr1
                    omega
                  · obtain ⟨c1, _, _⟩ := ihA r (List.mem_cons_of_mem _ hr)
                    have := ihF.1 r hr
                    simp only at this
                    omega
                rw [hsi, he]
                exact List.mem_cons_self _ _
              · have hfail : FailAt p row (s - 1) := by
                  rcases hleft with h | h
                  · exact absurd h hsi
                  · exact h
                by_cases hs1 : s = i + 1
                · exfalso
                  apply sat_fail_absurd hsatI
                  rw [hs1] at hfail
                  simpa using hfail
                · exact List.mem_cons_of_mem _
                    (ihH s e (by omega) h2 h3 hin (Or.inr hfail) hright)
      · have hpaf : p a = false := by
          cases hv : p a
          · rfl
          · exact absurd hv hpa
        have hfailI : FailAt p row i := ⟨a, hia, hpaf⟩
        have hout : findRuns p (row.drop i) i = findRuns p t (i + 1) := by
          rw [hdrop, findRuns_cons, if_neg hpa]
        rw [RunsSpec, hout]
        refine ⟨?_, ?_, ?_, ?_, ?_, ?_, ihF, ?_⟩
        · intro r hr
          obtain ⟨c1, c2, c3⟩ := ihA r hr
          exact ⟨by omega, c2, c3⟩
        · intro r hr hr1
          obtain ⟨c1, _, _⟩ := ihA r hr
          omega
        · exact ihB
        · intro r hr
          rcases ihC r hr with h | h
          · right
            rw [h]
            simpa using hfailI
          · exact Or.inr h
        · exact ihD
        · intro j h1 h2 hs
          by_cases hji : j = i
          · rw [hji] at hs
            exact absurd (sat_fail_absurd hs hfailI) id
          · exact ihE j (by omega) h2 hs
        · intro s e h1 h2 h3 hin hleft hright
          by_cases hsi : s = i
          · exfalso
            apply sat_fail_absurd (hin s (le_refl _) h2)
            rw [hsi]
            exact hfailI
          · have hfail : FailAt p row (s - 1) := by
              rcases hleft with h | h
              · exact absurd h hsi
              · exact h
            exact ihH s e (by omega) h2 h3 hin (Or.inr hfail) hright

theorem pairwise_gap_unique {L : List (ℕ × ℕ)}
    (hp : List.Pairwise (fun r1 r2 : ℕ × ℕ => r1.2 < r2.1) L) :
    ∀ r1 ∈ L, ∀ r2 ∈ L, ∀ j : ℕ, r1.1 ≤ j → j < r1.2 → r2.1 ≤ j → j < r2.2 → r1 = r2 := by
  induction L with
  | nil =>
    intro r1 h1
    exact absurd h1 (List.not_mem_nil r1)
  | cons hd tl ih =>
    intro r1 h1 r2 h2 j ha hb hc hd2
    rw [List.pairwise_cons] at hp
    rw [List.mem_cons] at h1 h2
    rcases h1 with h1 | h1 <;> rcases h2 with h2 | h2
    · rw [h1, h2]
    · exfalso
      have := hp.1 r2 h2
      rw [h1] at ha hb
      omega
    · exfalso
      have := hp.1 r1 h1
      rw [h2] at hc hd2
      omega
    · exact ih hp.2 r1 h1 r2 h2 j ha hb hc hd2

/-- C6: the capacity-violation scan emits exactly the maximal contiguous runs
of slots whose value meets the threshold: a pair is emitted iff it is a
maximal run (`IsMaxRun`); every slot meeting the threshold lies in exactly one
emitted run; consecutive emitted runs are separated by at least one
below-threshold slot (no two are adjacent or mergeable); re-scanning is the
same pure function, hence idempotent.  Date-level rows are scanned against the
raw location cap (`capRuns` of `createHeatmap`), while the weekly day-of-week
rows use `max 1 (cap - 1)` (`weeklyRuns`). -/
theorem capacity_runs_maximal :
    (∀ (row : List ℤ) (thr : ℤ),
      (∀ r : ℕ × ℕ, r ∈ findRuns (fun v => decide (thr ≤ v)) row 0
        ↔ IsMaxRun (fun v => decide (thr ≤ v)) row r) ∧
      (∀ (j : ℕ) (b : ℤ), row[j]? = some b → thr ≤ b →
        ∃ r : ℕ × ℕ,
          (r ∈ findRuns (fun v => decide (thr ≤ v)) row 0 ∧ r.1 ≤ j ∧ j < r.2) ∧
          ∀ r2 : ℕ × ℕ,
            (r2 ∈ findRuns (fun v => decide (thr ≤ v)) row 0 ∧ r2.1 ≤ j ∧ j < r2.2) →
              r2 = r) ∧
      List.Pairwise (fun r1 r2 : ℕ × ℕ => r1.2 < r2.1)
        (findRuns (fun v => decide (thr ≤ v)) row 0)) ∧
    (∀ (slots : List Slot) (data : List Item) (loc : Option (List Char)),
      (createHeatmap slots data loc).capRuns
        = ((createHeatmap slots data loc).rows.map (fun r => r.map (fun v : ℕ => (v : ℤ)))
            ++ [(createHeatmap slots data loc).avgRow]).map
            (fun r => findRuns
              (fun v => decide (((createHeatmap slots data loc).cap : ℤ) ≤ v)) r 0)) ∧
    (∀ cap : ℤ, weekly_cap_threshold cap = max 1 (cap - 1)) ∧
    (∀ (data : List Item) (slots : List Slot) (cap : ℤ),
      weeklyRuns data slots cap
        = dayNames.map (fun day =>
            findRuns (fun v => decide (((weekly_cap_threshold cap : ℤ) : ℚ) ≤ v))
              (weeklySlotVals data slots day) 0)) := by
  refine ⟨?_, fun slots data loc => rfl, fun cap => rfl, fun data slots cap => rfl⟩
  intro row thr
  have hs := runsSpec_all (fun v => decide (thr ≤ v)) row row.length 0 (by omega)
  rw [RunsSpec, List.drop_zero] at hs
  obtain ⟨hA, hG, hB, hC, hD, hE, hF, hH⟩ := hs
  refine ⟨?_, ?_, hF⟩
  · intro r
    constructor
    · intro hr
      obtain ⟨c1, c2, c3⟩ := hA r hr
      rw [IsMaxRun]
      exact ⟨c2, c3, hB r hr, hC r hr, hD r hr⟩
    · intro hmr
      rw [IsMaxRun] at hmr
      obtain ⟨m1, m2, m3, m4, m5⟩ := hmr
      have := hH r.1 r.2 (by omega) m1 m2 m3 m4 m5
      rwa [Prod.mk.eta] at this
  · intro j b hjb hthr
    have hsat : SatAt (fun v => decide (thr ≤ v)) row j := ⟨b, hjb, by simpa using hthr⟩
    have hjlen : j < row.length := (List.getElem?_eq_some.mp hjb).1
    obtain ⟨r, hr, hr1, hr2⟩ := hE j (by omega) hjlen hsat
    refine ⟨r, ⟨hr, hr1, hr2⟩, ?_⟩
    rintro r2 ⟨hm2, hm21, hm22⟩
    exact pairwise_gap_unique hF r2 hm2 r hr j hm21 hm22 hr1 hr2

/-- Witness for `capacity_runs_maximal` on the spec's scenario-3 row
`[0, 1, 2, 2, 2, 1, 0]` at threshold 2: the scan yields exactly the single
maximal run `[2, 5)`. -/
theorem capacity_runs_maximal_witness :
    findRuns (fun v => decide ((2 : ℤ) ≤ v)) [0, 1, 2, 2, 2, 1, 0] 0 = [(2, 5)] ∧
    IsMaxRun (fun v => decide ((2 : ℤ) ≤ v)) [0, 1, 2, 2, 2, 1, 0] (2, 5) := by
  have heq : findRuns (fun v => decide ((2 : ℤ) ≤ v)) [0, 1, 2, 2, 2, 1, 0] 0 = [(2, 5)] := by
    decide
  refine ⟨heq, ?_⟩
  exact ((capacity_runs_maximal.1 [0, 1, 2, 2, 2, 1, 0] 2).1 (2, 5)).mp
    (by rw [heq]; exact List.mem_singleton.mpr rfl)

theorem mem_insertStable {α : Type} (lt : α → α → Bool) (x z : α) :
    ∀ l : List α, z ∈ insertStable lt x l ↔ z = x ∨ z ∈ l := by
  intro l
  induction l with
  | nil => simp [insertStable]
  | cons y t ih =>
    rw [insertStable]
    by_cases hyx : lt y x = true
    · rw [if_pos hyx]
      simp only [List.mem_cons, ih]
      tauto
    · rw [if_neg hyx]
      simp only [List.mem_cons]

theorem keyLtB_true_iff (a b : ℕ × ℕ) :
    keyLtB a b = true ↔ (a.1 < b.1 ∨ (a.1 = b.1 ∧ a.2 < b.2)) := by
  simp [keyLtB]

theorem insertStable_pairwise_buckets (x : List ℕ) :
    ∀ l : List (List ℕ),
      List.Pairwise (fun c d => (bucketKey d).1 < (bucketKey c).1
        ∨ ((bucketKey c).1 = (bucketKey d).1 ∧ (bucketKey d).2 ≤ (bucketKey c).2)) l →
      List.Pairwise (fun c d => (bucketKey d).1 < (bucketKey c).1
        ∨ ((bucketKey c).1 = (bucketKey d).1 ∧ (bucketKey d).2 ≤ (bucketKey c).2))
        (insertStable (fun c d => keyLtB (bucketKey d) (bucketKey c)) x l) := by
  intro l
  induction l with
  | nil =>
    intro _
    exact List.pairwise_singleton _ _
  | cons y t ih =>
    intro hp
    rw [List.pairwise_cons] at hp
    rw [insertStable]
    by_cases hyx : keyLtB (bucketKey x) (bucketKey y) = true
    · rw [if_pos hyx]
      rw [List.pairwise_cons]
      constructor
      · intro z hz
        rw [mem_insertStable] at hz
        rcases hz with hz | hz
        · subst hz
          rw [keyLtB_true_iff] at hyx
          omega
        · exact hp.1 z hz
      · exact ih hp.2
    · rw [if_neg hyx]
      have hxy : ¬((bucketKey x).1 < (bucketKey y).1
          ∨ ((bucketKey x).1 = (bucketKey y).1 ∧ (bucketKey x).2 < (bucketKey y).2)) := by
        rw [← keyLtB_true_iff]
        exact hyx
      rw [List.pairwise_cons]
      constructor
      · intro z hz
        rw [List.mem_cons] at hz
        rcases hz with hz | hz
        · subst hz
          omega
        · have := hp.1 z hz
          omega
      · rw [List.pairwise_cons]
        exact hp
    
theorem sortStable_pairwise_buckets (l : List (List ℕ)) :
    List.Pairwise (fun c d => (bucketKey d).1 < (bucketKey c).1
      ∨ ((bucketKey c).1 = (bucketKey d).1 ∧ (bucketKey d).2 ≤ (bucketKey c).2))
      (sortStable (fun c d => keyLtB (bucketKey d) (bucketKey c)) l) := by
  induction l with
  | nil => exact List.Pairwise.nil
  | cons a t ih =>
    rw [sortStable]
    exact insertStable_pairwise_buckets a _ ih

theorem insertStable_filter_buckets (x : List ℕ) (k : ℕ × ℕ) :
    ∀ l : List (List ℕ),
      (insertStable (fun c d => keyLtB (bucketKey d) (bucketKey c)) x l).filter
          (fun c => decide (bucketKey c = k))
        = if bucketKey x = k then x :: l.filter (fun c => decide (bucketKey c = k))
          else l.filter (fun c => decide (bucketKey c = k)) := by
  intro l
  induction l with
  | nil =>
    rw [insertStable]
    by_cases hk : bucketKey x = k
    · rw [if_pos hk]
      simp [List.filter, hk]
    · rw [if_neg hk]
      simp [List.filter, hk]
  | cons y t ih =>
    rw [insertStable]
    by_cases hyx : keyLtB (bucketKey x) (bucketKey y) = true
    · rw [if_pos hyx, List.filter_cons, ih]
      by_cases hk : bucketKey x = k
      · have hyk : ¬bucketKey y = k := by
          intro hyk
          rw [keyLtB_true_iff] at hyx
          have hxy : bucketKey x = bucketKey y := by rw [hk, hyk]
          rw [hxy] at hyx
          omega
        simp [hk, hyk]
      · simp [hk, List.filter_cons]
    · rw [if_neg hyx]
      by_cases hk : bucketKey x = k
      · simp [List.filter_cons, hk]
      · simp [List.filter_cons, hk]

theorem sortStable_filter_buckets (k : ℕ × ℕ) (l : List (List ℕ)) :
    (sortStable (fun c d => keyLtB (bucketKey d) (bucketKey c)) l).filter
        (fun c => decide (bucketKey c = k))
      = l.filter (fun c => decide (bucketKey c = k)) := by
  induction l with
  | nil => rfl
  | cons a t ih =>
    rw [sortStable, insertStable_filter_buckets, ih, List.filter_cons]
    by_cases hk : bucketKey a = k
    · rw [if_pos hk, if_pos (by simpa using hk)]
    · rw [if_neg hk, if_neg (by simpa using hk)]

theorem chunks6_flatten {α : Type} (l : List α) : (chunks6 l).flatten = l := by
  induction l using chunks6.induct <;> simp [chunks6, *]

theorem chunks6_sizes {α : Type} (l : List α) :
    ∀ c ∈ chunks6 l, 0 < c.length ∧ c.length ≤ 6 := by
  induction l using chunks6.induct <;> intro c hc <;> simp only [chunks6] at hc <;>
    first
    | exact absurd hc (List.not_mem_nil c)
    | (rw [List.mem_singleton] at hc; subst hc; simp)
    | (rw [List.mem_cons] at hc
       rcases hc with hc | hc
       · subst hc
         simp
       · exact (by assumption : ∀ c ∈ chunks6 _, 0 < c.length ∧ c.length ≤ 6) c hc)

/-- C7: the busiest-hour ranking partitions the slot grid into contiguous
1-hour buckets (flattening the buckets restores the row, every bucket holds 1
to 6 slots), ranks the buckets descending by the lexicographic key
`(total, max)` with a stable sort, and returns at most 4 entries; for equal
keys the original bucket order is preserved (the sorted list filtered to any
fixed key equals the original bucket list filtered to that key). -/
theorem busiest_hours_ranking (counts : List ℕ) :
    (chunks6 counts).flatten = counts ∧
    (∀ c ∈ chunks6 counts, 0 < c.length ∧ c.length ≤ 6) ∧
    busiestHours counts
      = (sortStable (fun c d => keyLtB (bucketKey d) (bucketKey c)) (chunks6 counts)).take 4 ∧
    (busiestHours counts).length ≤ 4 ∧
    List.Pairwise
      (fun c d => (bucketKey d).1 < (bucketKey c).1
        ∨ ((bucketKey c).1 = (bucketKey d).1 ∧ (bucketKey d).2 ≤ (bucketKey c).2))
      (busiestHours counts) ∧
    (∀ k : ℕ × ℕ,
      (sortStable (fun c d => keyLtB (bucketKey d) (bucketKey c)) (chunks6 counts)).filter
          (fun c => decide (bucketKey c = k))
        = (chunks6 counts).filter (fun c => decide (bucketKey c = k))) := by
  refine ⟨chunks6_flatten counts, chunks6_sizes counts, rfl, ?_, ?_, ?_⟩
  · exact List.length_take_le 4 _
  · exact List.Pairwise.sublist (List.take_sublist 4 _) (sortStable_pairwise_buckets _)
  · intro k
    exact sortStable_filter_buckets k _
